import Mathlib

/-!
# A verification model of the eks-node-viewer in-memory cluster model

This file gives a shallow embedding, in Lean, of the in-memory cluster
reconciliation model of `eks-node-viewer` (packages `pkg/model`:
`cluster.go`, `node.go`, `pod.go`), and proves properties of the embedded
operations.

Modelling conventions, chosen once and used throughout:

* Kubernetes `resource.Quantity` values are exact decimal numbers with exact
  `Add`/`Sub`; they are embedded as `ℚ`.  A `v1.ResourceList` is a map from
  resource name to quantity in which an absent key behaves as the zero
  quantity everywhere the model reads it (Go's zero-value map access); it is
  embedded as the total function `String → ℚ`.  The Go helper
  `addResources(lhs, rhs)` writes `lhs[rn] += q` for every key of `rhs`,
  which is pointwise addition under this reading.
* Go `float64` is used by the source only for node prices, where `math.NaN()`
  is the explicit "price unknown" sentinel and the only operations performed
  are `+` and the self-equality test `n.Price == n.Price`.  It is embedded as
  `GoFloat`: an explicit NaN constructor plus finite values as `ℚ` (IEEE
  rounding of finite sums is abstracted to exact arithmetic; NaN absorption
  and `NaN ≠ NaN` are modelled exactly).
* Go `time.Time` is embedded as `Int`, with `0` playing the role of the zero
  `time.Time{}` (`IsZero`).  `==` and `Before` on times become `=` and `<`.
* Go maps (`map[string]*Node`, `map[objectKey]*Pod`) are embedded as
  association lists with the map operations `lookupA`/`upsertA`/`eraseA`.
  Go map iteration order is unspecified; every aggregate computed by
  iterating a map in the source (counters, pointwise resource sums, price
  sums) is order-insensitive, so the embedding folds over the stored list
  order.
* Pointer mutation (`existing.Update(...)`, `n.BindPod(...)`, `n.Show()`)
  becomes replacing the value stored at the node's key, which preserves the
  entry (its key and position) exactly as in-place mutation of the pointee
  does.
* String comparison in Go (`<` on `string`) is byte-wise; on valid UTF-8,
  byte-wise order coincides with code-point order, embedded as `chListLt`
  over `String.data`.
-/

namespace EksNodeViewer

/-- A `v1.ResourceList` read with Go zero-value semantics: resource name to
exact quantity, absent keys read as `0`. -/
abbrev ResourceList := String → ℚ

/-- The all-zero resource list (`v1.ResourceList{}` as read by the model). -/
def zeroResources : ResourceList := fun _ => 0

/-- `addResources` of `cluster.go` (`lhs[rn] += q` for each key of `rhs`),
read pointwise. -/
def addResources (lhs rhs : ResourceList) : ResourceList := fun rn => lhs rn + rhs rn

/-- The subtraction loop of `Node.DeletePod` (`existing.Sub(q)` for each key
of the deleted pod's requests), read pointwise. -/
def subResources (lhs rhs : ResourceList) : ResourceList := fun rn => lhs rn - rhs rn

/-- A Go `float64` as used for node prices: `nan` is `math.NaN()`, the
unknown-price sentinel; finite values are exact rationals. -/
inductive GoFloat where
  | nan : GoFloat
  | fin (q : ℚ) : GoFloat
deriving DecidableEq

/-- `float64` addition restricted to the values the source produces:
NaN absorbs, finite values add exactly. -/
def GoFloat.add : GoFloat → GoFloat → GoFloat
  | .nan, _ => .nan
  | .fin _, .nan => .nan
  | .fin a, .fin b => .fin (a + b)

/-- The finite value of a `GoFloat`, with `0` for NaN. -/
def GoFloat.val : GoFloat → ℚ
  | .nan => 0
  | .fin q => q

/-- `objectKey` of `node.go`: (namespace, name). -/
abbrev ObjKey := String × String

/-- Association-list read of a Go map: the value stored at `k`, if any. -/
def lookupA {κ α : Type} [DecidableEq κ] (l : List (κ × α)) (k : κ) : Option α :=
  match l with
  | [] => none
  | (k', v) :: t => if k' = k then some v else lookupA t k

/-- Association-list write of a Go map (`m[k] = v`): replace the entry if the
key is present, otherwise append a new entry. -/
def upsertA {κ α : Type} [DecidableEq κ] (l : List (κ × α)) (k : κ) (v : α) : List (κ × α) :=
  match l with
  | [] => [(k, v)]
  | (k', v') :: t => if k' = k then (k, v) :: t else (k', v') :: upsertA t k v

/-- Association-list delete of a Go map (`delete(m, k)`). -/
def eraseA {κ α : Type} [DecidableEq κ] (l : List (κ × α)) (k : κ) : List (κ × α) :=
  match l with
  | [] => []
  | (k', v') :: t => if k' = k then t else (k', v') :: eraseA t k

/-! ## Pod (`pod.go`) -/

/-- One container's declared resource requests (`c.Resources.Requests`). -/
structure Container where
  requests : ResourceList

/-- The snapshot of a `v1.Pod` held by the model's `Pod` wrapper: the fields
the embedded operations read. -/
structure Pod where
  nameSpace : String
  name : String
  /-- `Spec.NodeName`; empty when unscheduled. -/
  nodeName : String
  /-- `Status.Phase` (`v1.PodPhase` is a string type). -/
  phase : String
  containers : List Container
  /-- `ObjectMeta.Annotations`. -/
  annots : List (String × String)

/-- `Pod.IsScheduled`: the pod has a target node. -/
def Pod.isScheduled (p : Pod) : Bool := p.nodeName != ""

/-- `Pod.IsCompleted`: the phase is `Succeeded` or `Failed`. -/
def Pod.isCompleted (p : Pod) : Bool := p.phase == "Succeeded" || p.phase == "Failed"

/-- `Pod.Requested` of `pkg/model/pod.go`: sum the container-level requests,
then set the synthetic `pods` resource (`v1.ResourcePods`) to exactly `1`
(the source writes `requested[v1.ResourcePods] = resource.MustParse("1")`,
overwriting, not adding). -/
def Pod.requested (p : Pod) : ResourceList :=
  let base := p.containers.foldl (fun acc c => addResources acc c.requests) zeroResources
  fun rn => if rn = "pods" then 1 else base rn

/-! ## Node (`node.go`) -/

/-- A node readiness condition: the `Type` and `Status` fields of a
`v1.NodeCondition` (both string-valued). -/
structure NodeCondition where
  condType : String
  status : String

/-- The snapshot of a `v1.Node` held by the model's `Node` wrapper (`n.node`):
the fields the embedded operations read. -/
structure NodeSnap where
  name : String
  /-- `Spec.ProviderID`. -/
  providerID : String
  /-- `ObjectMeta.CreationTimestamp` (`0` = zero time). -/
  creationTimestamp : Int
  /-- `Status.Allocatable`. -/
  allocatable : ResourceList
  /-- `Status.Conditions`. -/
  conditions : List NodeCondition

/-- The model's `Node` entity (`node.go`): visibility flag, the `v1.Node`
snapshot, the bound-pod map, the incrementally maintained usage cache, the
price (`NaN` = unknown) and the nodeclaim creation time (`0` = zero time). -/
structure Node where
  visible : Bool
  node : NodeSnap
  pods : List (ObjKey × Pod)
  used : ResourceList
  Price : GoFloat
  nodeclaimCreationTime : Int

/-- `NewNode`: wrap a node snapshot; empty bound-pod map, zero usage,
zero-valued price (Go zero value `0.0`, which is a *known* price), not
visible, zero nodeclaim creation time. -/
def NewNode (snap : NodeSnap) : Node :=
  { visible := false
    node := snap
    pods := []
    used := zeroResources
    Price := GoFloat.fin 0
    nodeclaimCreationTime := 0 }

/-- `Node.Name`: the snapshot's name, falling back to `Spec.ProviderID` when
the name is empty. -/
def Node.name (n : Node) : String :=
  if n.node.name = "" then n.node.providerID else n.node.name

/-- `Node.Update`: replace the stored snapshot (`n.node = *node`); every
other field of the entity is untouched. -/
def Node.update (n : Node) (snap : NodeSnap) : Node := { n with node := snap }

/-- `Node.BindPod`: store the pod under its (namespace, name) key; add its
requested resources to the usage cache only when that key was not already
bound. -/
def Node.bindPod (n : Node) (p : Pod) : Node :=
  let key : ObjKey := (p.nameSpace, p.name)
  let alreadyBound := (lookupA n.pods key).isSome
  let pods' := upsertA n.pods key p
  if alreadyBound then { n with pods := pods' }
  else { n with pods := pods', used := addResources n.used p.requested }

/-- `Node.DeletePod`: if the key is bound, subtract the stored pod's
requested resources from the usage cache and remove the entry; otherwise a
no-op. -/
def Node.deletePod (n : Node) (ns nm : String) : Node :=
  match lookupA n.pods (ns, nm) with
  | some p => { n with used := subResources n.used p.requested, pods := eraseA n.pods (ns, nm) }
  | none => n

/-- `Node.HasPrice`: the source tests `n.Price == n.Price`, which by IEEE 754
is false exactly for NaN, the unknown-price sentinel. -/
def Node.hasPrice (n : Node) : Bool :=
  match n.Price with
  | .nan => false
  | .fin _ => true

/-- `Node.Ready` of `node.go`: scan the conditions for a `Ready` condition
with status `True` (the loop breaks at the first hit, which is `List.any`);
as a side effect, when ready, zero the stored nodeclaim creation time.
Returned as (result, updated node). -/
def Node.ready (n : Node) : Bool × Node :=
  let r := n.node.conditions.any fun c => c.status == "True" && c.condType == "Ready"
  if r then (true, { n with nodeclaimCreationTime := 0 }) else (false, n)

/-- `Node.Created`: the nodeclaim creation time when it is set (non-zero),
otherwise the snapshot's creation timestamp. -/
def Node.created (n : Node) : Int :=
  if n.nodeclaimCreationTime ≠ 0 then n.nodeclaimCreationTime else n.node.creationTimestamp

/-- `Node.Hide`. -/
def Node.hide (n : Node) : Node := { n with visible := false }

/-- `Node.Show`. -/
def Node.show' (n : Node) : Node := { n with visible := true }

/-! ## Cluster (`cluster.go`) -/

/-- The aggregation root: the node map keyed by `Node.Name()` and the pod map
keyed by (namespace, name). -/
structure Cluster where
  nodes : List (String × Node)
  pods : List (ObjKey × Pod)

/-- `NewCluster` (the `resources` display-selection list is irrelevant to the
embedded operations and omitted). -/
def NewCluster : Cluster := { nodes := [], pods := [] }

/-- `Cluster.AddNode`: upsert by `node.Name()`.  If an entry exists, replace
the existing entity's snapshot in place (the entry keeps its key, position,
bound pods, usage cache, price, visibility and nodeclaim creation time) and
return the existing entity; otherwise install the new node as-is and return
it. -/
def Cluster.addNode (c : Cluster) (node : Node) : Node × Cluster :=
  match lookupA c.nodes node.name with
  | some existing =>
      let ex' := existing.update node.node
      (ex', { c with nodes := upsertA c.nodes node.name ex' })
  | none => (node, { c with nodes := upsertA c.nodes node.name node })

/-- `Cluster.DeleteNode`: remove the node entry under `name`, then remove
from the pod map every pod whose `NodeName()` equals `name` (the source
collects the keys of those pods and deletes each; with the map's unique keys
this removes exactly those entries).  Both happen under one cluster lock,
i.e. as this single transition. -/
def Cluster.deleteNode (c : Cluster) (name : String) : Cluster :=
  { nodes := eraseA c.nodes name
    pods := c.pods.filter fun kp => !(kp.2.nodeName == name) }

/-- `Cluster.GetNode`: lookup by node key. -/
def Cluster.getNode (c : Cluster) (name : String) : Option Node := lookupA c.nodes name

/-- `Cluster.GetPod`: lookup by (namespace, name). -/
def Cluster.getPod (c : Cluster) (ns nm : String) : Option Pod := lookupA c.pods (ns, nm)

/-- The placeholder synthesized by `Cluster.AddPod` when a pod's target node
is unknown: `AddNode(NewNode(&v1.Node{ObjectMeta: metav1.ObjectMeta{Name:
pod.NodeName()}}))` followed by `Hide()` — a `NewNode` carrying only the
name, hidden. -/
def placeholderNode (nm : String) : Node :=
  (NewNode
    { name := nm
      providerID := ""
      creationTimestamp := 0
      allocatable := zeroResources
      conditions := [] }).hide

/-- `Cluster.AddPod` (its `*pricing.Provider` argument is unused by the
body and omitted): upsert the pod into the pod map and remember the new
total; stop if the pod is unscheduled or completed; otherwise bind it to its
target node, synthesizing a hidden placeholder node when the target is
unknown.  Returns (new total pod count, updated cluster). -/
def Cluster.addPod (c : Cluster) (pod : Pod) : Nat × Cluster :=
  let pods' := upsertA c.pods (pod.nameSpace, pod.name) pod
  let totalPods := pods'.length
  let c1 : Cluster := { c with pods := pods' }
  if !pod.isScheduled || pod.isCompleted then (totalPods, c1)
  else
    match c1.getNode pod.nodeName with
    | some n =>
        (totalPods, { c1 with nodes := upsertA c1.nodes pod.nodeName (n.bindPod pod) })
    | none =>
        (totalPods,
          { c1 with nodes := upsertA c1.nodes pod.nodeName ((placeholderNode pod.nodeName).bindPod pod) })

/-- `Cluster.DeletePod`: if the pod exists and is scheduled, unbind it from
its target node (when that node exists); then remove it from the pod map.
Returns (new total pod count, updated cluster). -/
def Cluster.deletePod (c : Cluster) (ns nm : String) : Nat × Cluster :=
  let c1 : Cluster :=
    match c.getPod ns nm with
    | some p =>
        if p.isScheduled then
          match c.getNode p.nodeName with
          | some n => { c with nodes := upsertA c.nodes p.nodeName (n.deletePod ns nm) }
          | none => c
        else c
    | none => c
  let pods' := eraseA c1.pods (ns, nm)
  (pods'.length, { c1 with pods := pods' })

/-! ## Stats (`cluster.go` `Stats()`) -/

/-- Byte-wise (= code-point-wise on valid UTF-8) strict order on character
lists: Go's `<` on strings. -/
def chListLt : List Char → List Char → Bool
  | [], [] => false
  | [], _ :: _ => true
  | _ :: _, [] => false
  | a :: as, b :: bs => if a < b then true else if b < a then false else chListLt as bs

/-- Go string `<`. -/
def strLt (s t : String) : Bool := chListLt s.data t.data

/-- The `sort.Slice` comparator of `Stats()`: by `Created()` ascending,
ties broken by `Name()` ascending. -/
def goNodeLess (a b : Node) : Bool :=
  if a.created = b.created then strLt a.name b.name
  else decide (a.created < b.created)

/-- The reflexive closure of the comparator, used to run the sort: `a` need
not come after `b`. -/
def nodeSortLE (a b : Node) : Bool := !goNodeLess b a

/-- The `Stats` snapshot (fields as populated by `Cluster.Stats`). -/
structure Stats where
  allocatableResources : ResourceList
  usedResources : ResourceList
  totalPods : Nat
  totalPrice : GoFloat
  numNodes : Nat
  podsByPhase : String → Nat
  boundPodCount : Nat
  nodes : List Node

/-- The pod-counting guard of `Stats()`: a pod is *skipped* when its target
node exists in the node map and is not visible; it is counted otherwise. -/
def Cluster.podCounted (c : Cluster) (p : Pod) : Bool :=
  match lookupA c.nodes p.nodeName with
  | some n => n.visible
  | none => true

/-- The visible nodes, in stored order. -/
def Cluster.visibleNodes (c : Cluster) : List Node :=
  (c.nodes.map Prod.snd).filter fun n => n.visible

/-- The pods that pass the visibility guard, in stored order. -/
def Cluster.countedPods (c : Cluster) : List Pod :=
  (c.pods.map Prod.snd).filter c.podCounted

/-- `Cluster.Stats`: iterate the pods, skipping pods bound to non-visible
nodes, accumulating the total, per-phase and bound counters; iterate the
nodes, skipping non-visible ones, accumulating price, count, the node list
and the pointwise allocatable/used sums; finally sort the node list with the
`created`-then-`name` comparator.  (Map iteration order is unspecified in Go
and every accumulation commutes, so the embedding folds in stored order;
`sort.Slice` is modelled by `mergeSort` with the reflexive comparator.) -/
def Cluster.stats (c : Cluster) : Stats :=
  let counted := c.countedPods
  let vis := c.visibleNodes
  { totalPods := counted.length
    podsByPhase := fun ph => (counted.filter fun p => p.phase == ph).length
    boundPodCount := (counted.filter fun p => p.nodeName != "").length
    totalPrice := vis.foldl (fun acc n => acc.add n.Price) (GoFloat.fin 0)
    numNodes := vis.length
    allocatableResources := fun rn => (vis.map fun n => n.node.allocatable rn).sum
    usedResources := fun rn => (vis.map fun n => n.used rn).sum
    nodes := vis.mergeSort nodeSortLE }

/-- Calling `Show()` on the node entity stored at key `k` (the caller holds
the pointer obtained from `AddNode`/`GetNode`; mutating through it updates
the stored entity). -/
def Cluster.showNode (c : Cluster) (k : String) : Cluster :=
  match lookupA c.nodes k with
  | some n => { c with nodes := upsertA c.nodes k n.show' }
  | none => c

/-! ## Fargate capacity parsing (`pod.go` `FargateCapacityProvisioned`)

The source matches the annotation value against the regular expression
`(.*?)vCPU (.*?)GB` with `FindStringSubmatch` and parses the two captured
groups with `strconv.ParseFloat`.

Regular-expression semantics embedded here: the pattern is unanchored with
two lazy groups, so `FindStringSubmatch` succeeds exactly when the subject
contains an occurrence of `"vCPU "` followed (disjointly) by an occurrence
of `"GB"`; the first group is everything before the *earliest* such
occurrence of `"vCPU "` and the second group is everything between it and
the earliest following `"GB"`.  (If no `"GB"` occurs after the earliest
`"vCPU "` then none occurs after any later one, so checking the earliest
occurrence is complete.  The one abstraction: `.` in Go does not match a
newline; annotation values are single-line, and the embedding treats `.` as
matching any character.)

On success `FindStringSubmatch` returns exactly 3 elements (whole match plus
two groups); on failure it returns nil.  The source checks
`len(match) != 3`, *logs*, and then unconditionally indexes `match[1]`,
so a present-but-non-matching annotation makes it index a nil slice — a
runtime panic.  The embedding returns `Option`: `none` is that panic. -/

/-- Is `pat` a leading piece of `s`? -/
def startsWith : List Char → List Char → Bool
  | _, [] => true
  | [], _ :: _ => false
  | c :: cs, d :: ds => c == d && startsWith cs ds

/-- Index of the first occurrence of `pat` in `s`, if any. -/
def findSub (pat : List Char) : List Char → Option Nat
  | [] => if startsWith [] pat then some 0 else none
  | c :: t => if startsWith (c :: t) pat then some 0 else (findSub pat t).map (· + 1)

/-- `FindStringSubmatch` for `(.*?)vCPU (.*?)GB`: the two captured groups,
or `none` when the subject does not match. -/
def fargateMatch (s : List Char) : Option (List Char × List Char) :=
  match findSub "vCPU ".data s with
  | none => none
  | some i =>
      let after := s.drop (i + 5)
      match findSub "GB".data after with
      | none => none
      | some j => some (s.take i, after.take j)

/-- Decimal digit value. -/
def digitVal (c : Char) : Option Nat :=
  if '0' ≤ c ∧ c ≤ '9' then some (c.toNat - '0'.toNat) else none

/-- Read a maximal run of decimal digits: (value, number of digits, rest). -/
def readDigits : List Char → Nat → Nat → Nat × Nat × List Char
  | [], acc, cnt => (acc, cnt, [])
  | c :: cs, acc, cnt =>
      match digitVal c with
      | some d => readDigits cs (acc * 10 + d) (cnt + 1)
      | none => (acc, cnt, c :: cs)

/-- `strconv.ParseFloat` on the decimal forms the annotation values take:
optional sign, digits with an optional fraction, optional decimal exponent.
(The hexadecimal, `Inf`/`NaN` and underscore forms of `ParseFloat` do not
arise here and are parse errors in the embedding; the value is kept exact
instead of rounded to `float64`.)  `none` is a parse error. -/
def parseGoFloat (s : List Char) : Option ℚ :=
  let (sign, cs1) : ℚ × List Char :=
    match s with
    | '+' :: t => (1, t)
    | '-' :: t => (-1, t)
    | t => (1, t)
  let (ip, ic, cs2) := readDigits cs1 0 0
  let (fp, fc, cs3) :=
    match cs2 with
    | '.' :: t => readDigits t 0 0
    | t => (0, 0, t)
  if ic + fc = 0 then none
  else
    let mant : ℚ := (ip : ℚ) + (fp : ℚ) / ((10 : ℚ) ^ fc)
    match cs3 with
    | [] => some (sign * mant)
    | e :: t =>
        if e = 'e' ∨ e = 'E' then
          let (esign, t1) : Int × List Char :=
            match t with
            | '+' :: t' => (1, t')
            | '-' :: t' => (-1, t')
            | t' => (1, t')
          let (ev, ec, t2) := readDigits t1 0 0
          if ec = 0 ∨ t2 ≠ [] then none
          else some (sign * mant * (10 : ℚ) ^ (esign * (ev : Int)))
        else none

/-- `Pod.FargateCapacityProvisioned`: read the `CapacityProvisioned`
annotation; absent annotation gives `(0, 0, false)`; a value that does not
match the regular expression makes the source index `match[1]` on a nil
slice — a panic, embedded as `none`; a matching value whose groups fail
`ParseFloat` gives `(0, 0, false)`; otherwise `(cpu, mem, true)`. -/
def Pod.fargateCapacityProvisioned (p : Pod) : Option (ℚ × ℚ × Bool) :=
  match lookupA p.annots "CapacityProvisioned" with
  | none => some (0, 0, false)
  | some s =>
      match fargateMatch s.data with
      | none => none
      | some (g1, g2) =>
          match parseGoFloat g1 with
          | none => some (0, 0, false)
          | some cpu =>
              match parseGoFloat g2 with
              | none => some (0, 0, false)
              | some mem => some (cpu, mem, true)

/-! ## Operation sequences

The event streams delivered by the watch layer, as calls on the aggregation
root.  `addNode` covers both `NewNode` and `NewNodeFromNodeClaim`
construction (the latter additionally sets the nodeclaim creation time). -/

/-- One call into the aggregation root. -/
inductive Op where
  | addNode (snap : NodeSnap) (nodeclaimCreationTime : Int)
  | deleteNode (name : String)
  | addPod (p : Pod)
  | deletePod (ns nm : String)

/-- Apply one call. -/
def applyOp (c : Cluster) : Op → Cluster
  | .addNode snap nct => (c.addNode { NewNode snap with nodeclaimCreationTime := nct }).2
  | .deleteNode k => c.deleteNode k
  | .addPod p => (c.addPod p).2
  | .deletePod ns nm => (c.deletePod ns nm).2

/-- Run a sequence of calls. -/
def runOps (c : Cluster) : List Op → Cluster
  | [] => c
  | op :: rest => runOps (applyOp c op) rest

/-- A node's usage cache agrees, at every resource, with the sum of
`Requested()` over the pods currently bound to it, each counted once. -/
def Node.consistent (n : Node) : Prop :=
  ∀ rn, n.used rn = (n.pods.map fun kp => kp.2.requested rn).sum

/-- Every node entity stored in the cluster has a consistent usage cache. -/
def Cluster.nodesConsistent (c : Cluster) : Prop :=
  ∀ kn ∈ c.nodes, Node.consistent kn.2

/-- The stepwise side condition under which the usage cache is exact: an
`AddPod` that re-binds an identity already bound to its target node must
carry the same `Requested()` as the pod currently stored there.  (The source
keeps the originally-added contribution on re-bind; with changed requests the
cache drifts — see the C2/C3 counterexamples.)  All other calls are
unconditional. -/
def Op.compatible (c : Cluster) : Op → Prop
  | .addPod p =>
      p.isScheduled = true → p.isCompleted = false →
        ∀ n q, lookupA c.nodes p.nodeName = some n →
          lookupA n.pods (p.nameSpace, p.name) = some q →
            ∀ rn, q.requested rn = p.requested rn
  | _ => True

/-- The side condition holds at every step of the run. -/
def goodRun (c : Cluster) : List Op → Prop
  | [] => True
  | op :: rest => op.compatible c ∧ goodRun (applyOp c op) rest

/-! ## Concrete inputs used by the claim theorems -/

/-- A container requesting `q` of cpu. -/
def cpuContainer (q : ℚ) : Container := ⟨fun rn => if rn = "cpu" then q else 0⟩

/-- A running pod `default/mypod` bound to node `n1` requesting cpu=1. -/
def c2Pod1 : Pod :=
  { nameSpace := "default", name := "mypod", nodeName := "n1", phase := "Running",
    containers := [cpuContainer 1], annots := [] }

/-- The same pod identity re-added with updated requests cpu=2. -/
def c2Pod2 : Pod :=
  { nameSpace := "default", name := "mypod", nodeName := "n1", phase := "Running",
    containers := [cpuContainer 2], annots := [] }

/-- Re-adding the same pod identity with changed requests. -/
def c2DemoOps : List Op := [Op.addPod c2Pod1, Op.addPod c2Pod2]

/-- A bare node used for the re-bind counterexample. -/
def c3Node : Node :=
  NewNode { name := "n1", providerID := "", creationTimestamp := 0,
            allocatable := zeroResources, conditions := [] }

/-- `default/mypod` requesting cpu=1. -/
def c3Pod1 : Pod :=
  { nameSpace := "default", name := "mypod", nodeName := "n1", phase := "Running",
    containers := [cpuContainer 1], annots := [] }

/-- The same identity with updated requests cpu=2. -/
def c3Pod2 : Pod :=
  { nameSpace := "default", name := "mypod", nodeName := "n1", phase := "Running",
    containers := [cpuContainer 2], annots := [] }

/-- A pod carrying the well-formed capacity annotation. -/
def c7PodOK : Pod :=
  { nameSpace := "default", name := "fp", nodeName := "fn", phase := "Running",
    containers := [], annots := [("CapacityProvisioned", "0.25vCPU 0.5GB")] }

/-- A pod with no capacity annotation. -/
def c7PodNoAnnot : Pod :=
  { nameSpace := "default", name := "fp", nodeName := "fn", phase := "Running",
    containers := [], annots := [] }

/-- A pod whose capacity annotation does not match the expected format. -/
def c7PodGarbage : Pod :=
  { nameSpace := "default", name := "fp", nodeName := "fn", phase := "Running",
    containers := [], annots := [("CapacityProvisioned", "garbage")] }

/-- Modelled from the spec's words, for comparison with the source:
"Identity: a stable key (provider-assigned instance identifier, falling back
to name if absent)". -/
def specNodeKey (n : Node) : String :=
  if n.node.providerID ≠ "" then n.node.providerID else n.node.name

/-- A node carrying both a name and a provider ID. -/
def c8Node : Node :=
  NewNode { name := "mynode", providerID := "mynode-id", creationTimestamp := 0,
            allocatable := zeroResources, conditions := [] }

/-- The cluster after adding that node. -/
def c8Cluster : Cluster := (NewCluster.addNode c8Node).2

/-- Node `n1` with allocatable cpu=1. -/
def c6Snap1 : NodeSnap :=
  { name := "n1", providerID := "", creationTimestamp := 0,
    allocatable := fun rn => if rn = "cpu" then 1 else 0, conditions := [] }

/-- The same identity re-observed with allocatable cpu=2. -/
def c6Snap2 : NodeSnap :=
  { name := "n1", providerID := "", creationTimestamp := 0,
    allocatable := fun rn => if rn = "cpu" then 2 else 0, conditions := [] }

/-- Add `n1` (cpu=1) and show it, as the watch layer does on a node event. -/
def c6Cluster1 : Cluster :=
  ((NewCluster.addNode (NewNode c6Snap1)).2).showNode (NewNode c6Snap1).name

/-- Re-add the same identity with cpu=2 and show it again. -/
def c6Cluster2 : Cluster :=
  ((c6Cluster1.addNode (NewNode c6Snap2)).2).showNode (NewNode c6Snap2).name

/-- The entity stored in `c6Cluster1` under `n1`. -/
def c6Ex : Node := (NewNode c6Snap1).show'

/-- Modelled from the spec's words, for comparison with the source: the
price total "summed only over nodes with a known price", an unknown-price
node contributing zero. -/
def specTotalPrice (c : Cluster) : GoFloat :=
  GoFloat.fin (((c.visibleNodes.filter fun n => n.hasPrice).map fun n => n.Price.val).sum)

/-- A visible node whose price is the unknown sentinel. -/
def c1NanNode : Node :=
  { visible := true
    node := { name := "n1", providerID := "", creationTimestamp := 0,
              allocatable := zeroResources, conditions := [] }
    pods := []
    used := zeroResources
    Price := GoFloat.nan
    nodeclaimCreationTime := 0 }

/-- A cluster whose single visible node has an unknown price. -/
def c1Cluster : Cluster := { nodes := [("n1", c1NanNode)], pods := [] }

/-- A visible node with the known price 5. -/
def c1FinNode : Node := { c1NanNode with Price := GoFloat.fin 5 }

/-- A cluster whose single visible node has the known price 5. -/
def c1aCluster : Cluster := { nodes := [("n1", c1FinNode)], pods := [] }

/-- Node `n1`, to be shown and given a bound pod. -/
def c4NodeInit : Node :=
  NewNode { name := "n1", providerID := "", creationTimestamp := 0,
            allocatable := fun rn => if rn = "cpu" then 8 else 0, conditions := [] }

/-- A running pod `default/mypod` bound to `n1` requesting cpu=2. -/
def c4Pod : Pod :=
  { nameSpace := "default", name := "mypod", nodeName := "n1", phase := "Running",
    containers := [cpuContainer 2], annots := [] }

/-- Visible `n1` with `default/mypod` bound to it. -/
def c4Cluster : Cluster :=
  ((((NewCluster.addNode c4NodeInit).2).showNode c4NodeInit.name).addPod c4Pod).2

/-- Node `n1` with allocatable cpu=8, added but not yet shown. -/
def c5Node : Node :=
  NewNode { name := "n1", providerID := "", creationTimestamp := 0,
            allocatable := fun rn => if rn = "cpu" then 8 else 0, conditions := [] }

/-- Pod `default/mypod`, requests cpu=1, targets `n1`. -/
def c5Pod : Pod :=
  { nameSpace := "default", name := "mypod", nodeName := "n1", phase := "Running",
    containers := [cpuContainer 1], annots := [] }

/-- Hidden `n1` with the pod bound to it. -/
def c5Cluster : Cluster := (((NewCluster.addNode c5Node).2).addPod c5Pod).2

/-- The entity stored under `n1` in `c5Cluster`. -/
def c5Stored : Node := c5Node.bindPod c5Pod

/-- A node named `a`, for the witness. -/
def c9Node : Node :=
  NewNode { name := "a", providerID := "", creationTimestamp := 3,
            allocatable := zeroResources, conditions := [] }

/-! ## Association-list lemmas -/

section AListLemmas

variable {κ α : Type} [DecidableEq κ]

theorem lookupA_mem {l : List (κ × α)} {k : κ} {v : α} (h : lookupA l k = some v) :
    (k, v) ∈ l := by
  induction l with
  | nil => simp [lookupA] at h
  | cons e t ih =>
      obtain ⟨k', v'⟩ := e
      by_cases hk : k' = k
      · subst hk
        simp [lookupA] at h
        simp [h]
      · simp [lookupA, hk] at h
        exact List.mem_cons_of_mem _ (ih h)

theorem lookupA_upsertA_self (l : List (κ × α)) (k : κ) (v : α) :
    lookupA (upsertA l k v) k = some v := by
  induction l with
  | nil => simp [lookupA, upsertA]
  | cons e t ih =>
      obtain ⟨k', v'⟩ := e
      by_cases hk : k' = k
      · simp [upsertA, hk, lookupA]
      · simp [upsertA, hk, lookupA, ih]

theorem lookupA_upsertA_ne (l : List (κ × α)) {k k' : κ} (v : α) (h : k' ≠ k) :
    lookupA (upsertA l k v) k' = lookupA l k' := by
  induction l with
  | nil => simp [upsertA, lookupA, Ne.symm h]
  | cons e t ih =>
      obtain ⟨k₀, v₀⟩ := e
      by_cases hk : k₀ = k
      · subst hk
        simp [upsertA, lookupA, Ne.symm h]
      · by_cases hk' : k₀ = k'
        · simp [upsertA, lookupA, hk, hk', h]
        · simp [upsertA, lookupA, hk, hk', ih]

theorem upsertA_of_lookupA_none {l : List (κ × α)} {k : κ} (v : α)
    (h : lookupA l k = none) : upsertA l k v = l ++ [(k, v)] := by
  induction l with
  | nil => simp [upsertA]
  | cons e t ih =>
      obtain ⟨k₀, v₀⟩ := e
      by_cases hk : k₀ = k
      · simp [lookupA, hk] at h
      · simp only [lookupA, hk, if_false] at h
        simp [upsertA, hk, ih h]

theorem exists_split_of_lookupA {l : List (κ × α)} {k : κ} {v : α}
    (h : lookupA l k = some v) :
    ∃ l₁ l₂, l = l₁ ++ (k, v) :: l₂ ∧ (∀ e ∈ l₁, e.1 ≠ k) ∧
      ∀ w, upsertA l k w = l₁ ++ (k, w) :: l₂ := by
  induction l with
  | nil => simp [lookupA] at h
  | cons e t ih =>
      obtain ⟨k₀, v₀⟩ := e
      by_cases hk : k₀ = k
      · subst hk
        simp [lookupA] at h
        exact ⟨[], t, by simp [h], by simp, fun w => by simp [upsertA]⟩
      · simp only [lookupA, hk, if_false] at h
        obtain ⟨l₁, l₂, hl, hn, hu⟩ := ih h
        exact ⟨(k₀, v₀) :: l₁, l₂, by simp [hl], by simpa [hk] using hn,
          fun w => by simp [upsertA, hk, hu w]⟩

theorem mem_upsertA {l : List (κ × α)} {k : κ} {v : α} {e : κ × α}
    (h : e ∈ upsertA l k v) : e ∈ l ∨ e = (k, v) := by
  induction l with
  | nil => simp [upsertA] at h; simp [h]
  | cons e₀ t ih =>
      obtain ⟨k₀, v₀⟩ := e₀
      by_cases hk : k₀ = k
      · simp [upsertA, hk] at h
        rcases h with h | h
        · simp [h]
        · simp [h]
      · simp only [upsertA, hk, if_false, List.mem_cons] at h
        rcases h with h | h
        · simp [h]
        · rcases ih h with h' | h'
          · simp [h']
          · simp [h']

theorem mem_eraseA {l : List (κ × α)} {k : κ} {e : κ × α} (h : e ∈ eraseA l k) : e ∈ l := by
  induction l with
  | nil => simp [eraseA] at h
  | cons e₀ t ih =>
      obtain ⟨k₀, v₀⟩ := e₀
      by_cases hk : k₀ = k
      · simp only [eraseA, hk, if_true] at h
        exact List.mem_cons_of_mem _ h
      · simp only [eraseA, hk, if_false, List.mem_cons] at h
        rcases h with h | h
        · simp [h]
        · exact List.mem_cons_of_mem _ (ih h)

theorem lookupA_eraseA_ne (l : List (κ × α)) {k k' : κ} (h : k' ≠ k) :
    lookupA (eraseA l k) k' = lookupA l k' := by
  induction l with
  | nil => simp [eraseA]
  | cons e₀ t ih =>
      obtain ⟨k₀, v₀⟩ := e₀
      by_cases hk : k₀ = k
      · subst hk
        simp [eraseA, lookupA, Ne.symm h]
      · by_cases hk' : k₀ = k'
        · simp [eraseA, lookupA, hk, hk', h]
        · simp [eraseA, lookupA, hk, hk', ih]

theorem lookupA_not_mem_keys {l : List (κ × α)} {k : κ}
    (h : k ∉ l.map Prod.fst) : lookupA l k = none := by
  induction l with
  | nil => rfl
  | cons e₀ t ih =>
      obtain ⟨k₀, v₀⟩ := e₀
      simp only [List.map_cons, List.mem_cons, not_or] at h
      simp only [lookupA]
      rw [if_neg (fun hh => h.1 hh.symm)]
      exact ih h.2

theorem lookupA_eraseA_self {l : List (κ × α)} {k : κ}
    (nodup : (l.map Prod.fst).Nodup) : lookupA (eraseA l k) k = none := by
  induction l with
  | nil => simp [eraseA, lookupA]
  | cons e₀ t ih =>
      obtain ⟨k₀, v₀⟩ := e₀
      simp only [List.map_cons, List.nodup_cons] at nodup
      by_cases hk : k₀ = k
      · subst hk
        simp only [eraseA, if_pos rfl]
        exact lookupA_not_mem_keys nodup.1
      · simp only [eraseA, hk, if_false, lookupA, hk, if_false]
        exact ih nodup.2

theorem lookupA_filter {l : List (κ × α)} {q : κ × α → Bool} {k : κ}
    (nodup : (l.map Prod.fst).Nodup) :
    lookupA (l.filter q) k =
      (lookupA l k).bind (fun v => if q (k, v) then some v else none) := by
  induction l with
  | nil => simp [lookupA]
  | cons e₀ t ih =>
      obtain ⟨k₀, v₀⟩ := e₀
      simp only [List.map_cons, List.nodup_cons] at nodup
      by_cases hk : k₀ = k
      · subst hk
        have hnone : lookupA t k₀ = none := lookupA_not_mem_keys nodup.1
        by_cases hq : q (k₀, v₀)
        · simp [List.filter_cons, hq, lookupA]
        · simp only [List.filter_cons, hq, Bool.false_eq_true, if_false, lookupA, if_pos rfl]
          rw [ih nodup.2, hnone]
          simp [hq]
      · by_cases hq : q (k₀, v₀)
        · simp only [List.filter_cons, hq, if_true, lookupA, hk, if_false]
          exact ih nodup.2
        · simp only [List.filter_cons, hq, Bool.false_eq_true, if_false, lookupA, hk, if_false]
          exact ih nodup.2

theorem sum_map_upsertA_some {l : List (κ × α)} {k : κ} {q : α} (f : κ × α → ℚ) (v : α)
    (h : lookupA l k = some q) :
    ((upsertA l k v).map f).sum = (l.map f).sum - f (k, q) + f (k, v) := by
  induction l with
  | nil => simp [lookupA] at h
  | cons e t ih =>
      obtain ⟨k₀, v₀⟩ := e
      by_cases hk : k₀ = k
      · subst hk
        have h' : v₀ = q := by simpa [lookupA] using h
        subst h'
        simp [upsertA, List.map_cons, List.sum_cons]
        ring
      · simp only [lookupA, hk, if_false] at h
        simp only [upsertA, hk, if_false, List.map_cons, List.sum_cons, ih h]
        ring

theorem sum_map_upsertA_none {l : List (κ × α)} {k : κ} (f : κ × α → ℚ) (v : α)
    (h : lookupA l k = none) :
    ((upsertA l k v).map f).sum = (l.map f).sum + f (k, v) := by
  rw [upsertA_of_lookupA_none v h]
  simp

theorem sum_map_eraseA_some {l : List (κ × α)} {k : κ} {q : α} (f : κ × α → ℚ)
    (h : lookupA l k = some q) :
    ((eraseA l k).map f).sum = (l.map f).sum - f (k, q) := by
  induction l with
  | nil => simp [lookupA] at h
  | cons e t ih =>
      obtain ⟨k₀, v₀⟩ := e
      by_cases hk : k₀ = k
      · subst hk
        have h' : v₀ = q := by simpa [lookupA] using h
        subst h'
        simp [eraseA]
      · simp only [lookupA, hk, if_false] at h
        simp only [eraseA, hk, if_false, List.map_cons, List.sum_cons, ih h]
        ring

end AListLemmas

/-! ## GoFloat lemmas -/

theorem GoFloat.add_comm (a b : GoFloat) : a.add b = b.add a := by
  cases a <;> cases b <;> simp [GoFloat.add]
  ring

theorem GoFloat.add_right_comm (a : GoFloat) (x y : GoFloat) :
    (a.add x).add y = (a.add y).add x := by
  cases a <;> cases x <;> cases y <;> simp [GoFloat.add]
  ring

/-- Pull one addend out of a price fold. -/
theorem foldl_goadd_out (l : List GoFloat) (acc x : GoFloat) :
    l.foldl GoFloat.add (acc.add x) = (l.foldl GoFloat.add acc).add x := by
  induction l generalizing acc with
  | nil => rfl
  | cons y t ih =>
      simp only [List.foldl_cons]
      rw [GoFloat.add_right_comm acc x y, ih]

/-! ## Specification lemmas for the cluster operations -/

theorem Cluster.addNode_spec_some {c : Cluster} {node ex : Node}
    (h : lookupA c.nodes node.name = some ex) :
    (c.addNode node).1 = ex.update node.node ∧
      (c.addNode node).2.nodes = upsertA c.nodes node.name (ex.update node.node) ∧
      (c.addNode node).2.pods = c.pods := by
  simp [Cluster.addNode, h]

theorem Cluster.addNode_spec_none {c : Cluster} {node : Node}
    (h : lookupA c.nodes node.name = none) :
    (c.addNode node).1 = node ∧
      (c.addNode node).2.nodes = c.nodes ++ [(node.name, node)] ∧
      (c.addNode node).2.pods = c.pods := by
  simp [Cluster.addNode, h, upsertA_of_lookupA_none]

theorem Cluster.addPod_spec_skip {c : Cluster} {p : Pod}
    (h : (!p.isScheduled || p.isCompleted) = true) :
    (c.addPod p).2 = { c with pods := upsertA c.pods (p.nameSpace, p.name) p } := by
  simp [Cluster.addPod, h]

theorem Cluster.addPod_spec_bind {c : Cluster} {p : Pod} {n : Node}
    (hb : (!p.isScheduled || p.isCompleted) = false)
    (hg : lookupA c.nodes p.nodeName = some n) :
    (c.addPod p).2 =
      { nodes := upsertA c.nodes p.nodeName (n.bindPod p)
        pods := upsertA c.pods (p.nameSpace, p.name) p } := by
  have hg' : Cluster.getNode { c with pods := upsertA c.pods (p.nameSpace, p.name) p }
      p.nodeName = some n := hg
  simp [Cluster.addPod, hb, hg']

theorem Cluster.addPod_spec_placeholder {c : Cluster} {p : Pod}
    (hb : (!p.isScheduled || p.isCompleted) = false)
    (hg : lookupA c.nodes p.nodeName = none) :
    (c.addPod p).2 =
      { nodes := upsertA c.nodes p.nodeName ((placeholderNode p.nodeName).bindPod p)
        pods := upsertA c.pods (p.nameSpace, p.name) p } := by
  have hg' : Cluster.getNode { c with pods := upsertA c.pods (p.nameSpace, p.name) p }
      p.nodeName = none := hg
  simp [Cluster.addPod, hb, hg']

theorem Cluster.deletePod_spec_unbound {c : Cluster} {ns nm : String}
    (h : ∀ p, lookupA c.pods (ns, nm) = some p → p.isScheduled = false) :
    (c.deletePod ns nm).2 = { c with pods := eraseA c.pods (ns, nm) } := by
  cases hg : lookupA c.pods (ns, nm) with
  | none =>
      have hg' : Cluster.getPod c ns nm = none := hg
      simp [Cluster.deletePod, hg']
  | some p =>
      have hg' : Cluster.getPod c ns nm = some p := hg
      simp [Cluster.deletePod, hg', h p hg]

theorem Cluster.deletePod_spec_bound {c : Cluster} {ns nm : String} {p : Pod} {n : Node}
    (hg : lookupA c.pods (ns, nm) = some p) (hs : p.isScheduled = true)
    (hn : lookupA c.nodes p.nodeName = some n) :
    (c.deletePod ns nm).2 =
      { nodes := upsertA c.nodes p.nodeName (n.deletePod ns nm)
        pods := eraseA c.pods (ns, nm) } := by
  have hg' : Cluster.getPod c ns nm = some p := hg
  have hn' : Cluster.getNode c p.nodeName = some n := hn
  simp [Cluster.deletePod, hg', hs, hn']

theorem Cluster.deletePod_spec_nonode {c : Cluster} {ns nm : String} {p : Pod}
    (hg : lookupA c.pods (ns, nm) = some p) (hs : p.isScheduled = true)
    (hn : lookupA c.nodes p.nodeName = none) :
    (c.deletePod ns nm).2 = { c with pods := eraseA c.pods (ns, nm) } := by
  have hg' : Cluster.getPod c ns nm = some p := hg
  have hn' : Cluster.getNode c p.nodeName = none := hn
  simp [Cluster.deletePod, hg', hs, hn']

/-! ## Behaviour of BindPod -/

theorem Node.bindPod_pods (m : Node) (q : Pod) :
    (m.bindPod q).pods = upsertA m.pods (q.nameSpace, q.name) q := by
  simp only [Node.bindPod]
  cases (lookupA m.pods (q.nameSpace, q.name)).isSome <;> simp

theorem Node.bindPod_already {m : Node} {q p₀ : Pod}
    (h : lookupA m.pods (q.nameSpace, q.name) = some p₀) :
    (m.bindPod q).used = m.used ∧
      (m.bindPod q).pods = upsertA m.pods (q.nameSpace, q.name) q := by
  simp [Node.bindPod, h]

theorem Node.bindPod_fresh_spec {m : Node} {q : Pod}
    (h : lookupA m.pods (q.nameSpace, q.name) = none) :
    (m.bindPod q).used = addResources m.used q.requested ∧
      (m.bindPod q).pods = upsertA m.pods (q.nameSpace, q.name) q := by
  simp [Node.bindPod, h]

/-! ## Exactness of the incrementally maintained usage cache -/

theorem Node.consistent_newNode (snap : NodeSnap) : (NewNode snap).consistent := by
  intro rn
  simp [NewNode, zeroResources]

theorem Node.consistent_nct (snap : NodeSnap) (nct : Int) :
    Node.consistent { NewNode snap with nodeclaimCreationTime := nct } := by
  intro rn
  simp [NewNode, zeroResources]

theorem Node.consistent_update {n : Node} (hc : n.consistent) (snap : NodeSnap) :
    (n.update snap).consistent := hc

theorem Node.consistent_hide {n : Node} (hc : n.consistent) : n.hide.consistent := hc

theorem Node.consistent_bindPod_fresh {n : Node} {p : Pod} (hc : n.consistent)
    (h : lookupA n.pods (p.nameSpace, p.name) = none) : (n.bindPod p).consistent := by
  intro rn
  simp only [Node.bindPod, h, Option.isSome_none, Bool.false_eq_true, if_false]
  rw [sum_map_upsertA_none (fun kp => kp.2.requested rn) p h]
  simp [addResources, hc rn]

theorem Node.consistent_bindPod_rebind {n : Node} {p q : Pod} (hc : n.consistent)
    (h : lookupA n.pods (p.nameSpace, p.name) = some q)
    (hreq : ∀ rn, q.requested rn = p.requested rn) : (n.bindPod p).consistent := by
  intro rn
  simp only [Node.bindPod, h, Option.isSome_some, if_true]
  rw [sum_map_upsertA_some (fun kp => kp.2.requested rn) p h]
  simp only [hc rn, hreq rn]
  ring

theorem Node.consistent_deletePod {n : Node} (hc : n.consistent) (ns nm : String) :
    (n.deletePod ns nm).consistent := by
  intro rn
  cases h : lookupA n.pods (ns, nm) with
  | none => simp only [Node.deletePod, h]; exact hc rn
  | some p₀ =>
      simp only [Node.deletePod, h]
      rw [sum_map_eraseA_some (fun kp => kp.2.requested rn) h]
      simp [subResources, hc rn]

/-- One call into the aggregation root preserves consistency of every stored
node's usage cache, under the step's side condition. -/
theorem applyOp_preserves_consistency {c : Cluster} {op : Op}
    (hc : c.nodesConsistent) (hcompat : op.compatible c) :
    (applyOp c op).nodesConsistent := by
  cases op with
  | addNode snap nct =>
      intro kn hkn
      simp only [applyOp] at hkn
      cases hl : lookupA c.nodes (Node.name { NewNode snap with nodeclaimCreationTime := nct }) with
      | some ex =>
          rw [(Cluster.addNode_spec_some hl).2.1] at hkn
          rcases mem_upsertA hkn with hm | hm
          · exact hc _ hm
          · rw [hm]
            exact Node.consistent_update (hc _ (lookupA_mem hl)) _
      | none =>
          rw [(Cluster.addNode_spec_none hl).2.1] at hkn
          rcases List.mem_append.mp hkn with hm | hm
          · exact hc _ hm
          · rw [List.mem_singleton.mp hm]
            exact Node.consistent_nct snap nct
  | deleteNode k =>
      intro kn hkn
      simp only [applyOp, Cluster.deleteNode] at hkn
      exact hc _ (mem_eraseA hkn)
  | addPod p =>
      intro kn hkn
      simp only [applyOp] at hkn
      by_cases hb : (!p.isScheduled || p.isCompleted) = true
      · rw [Cluster.addPod_spec_skip hb] at hkn
        exact hc _ hkn
      · have hb' : (!p.isScheduled || p.isCompleted) = false := by
          revert hb
          cases (!p.isScheduled || p.isCompleted) <;> simp
        have hsched : p.isScheduled = true := by
          revert hb'
          cases hh : p.isScheduled <;> simp
        have hcompl : p.isCompleted = false := by
          revert hb'
          cases hh : p.isCompleted <;> simp
        cases hg : lookupA c.nodes p.nodeName with
        | some n =>
            rw [Cluster.addPod_spec_bind hb' hg] at hkn
            simp only at hkn
            rcases mem_upsertA hkn with hm | hm
            · exact hc _ hm
            · rw [hm]
              cases hq : lookupA n.pods (p.nameSpace, p.name) with
              | none => exact Node.consistent_bindPod_fresh (hc _ (lookupA_mem hg)) hq
              | some q =>
                  exact Node.consistent_bindPod_rebind (hc _ (lookupA_mem hg)) hq
                    (hcompat hsched hcompl n q hg hq)
        | none =>
            rw [Cluster.addPod_spec_placeholder hb' hg] at hkn
            simp only at hkn
            rcases mem_upsertA hkn with hm | hm
            · exact hc _ hm
            · rw [hm]
              refine Node.consistent_bindPod_fresh
                (Node.consistent_hide (Node.consistent_newNode _)) ?_
              simp [placeholderNode, NewNode, Node.hide, lookupA]
  | deletePod ns nm =>
      intro kn hkn
      simp only [applyOp] at hkn
      by_cases hex : ∃ p, lookupA c.pods (ns, nm) = some p ∧ p.isScheduled = true
      · obtain ⟨p, hg, hs⟩ := hex
        cases hn : lookupA c.nodes p.nodeName with
        | some n =>
            rw [Cluster.deletePod_spec_bound hg hs hn] at hkn
            simp only at hkn
            rcases mem_upsertA hkn with hm | hm
            · exact hc _ hm
            · rw [hm]
              exact Node.consistent_deletePod (hc _ (lookupA_mem hn)) ns nm
        | none =>
            rw [Cluster.deletePod_spec_nonode hg hs hn] at hkn
            exact hc _ hkn
      · have hun : ∀ p, lookupA c.pods (ns, nm) = some p → p.isScheduled = false := by
          intro p hp
          by_contra hh
          exact hex ⟨p, hp, by revert hh; cases p.isScheduled <;> simp⟩
        rw [Cluster.deletePod_spec_unbound hun] at hkn
        exact hc _ hkn

/-- Exactness of the usage cache along a whole run. -/
theorem runOps_consistency {c : Cluster} (hc : c.nodesConsistent) :
    ∀ ops : List Op, goodRun c ops → (runOps c ops).nodesConsistent := by
  intro ops
  induction ops generalizing c with
  | nil => intro _; exact hc
  | cons op rest ih =>
      intro hgr
      exact ih (applyOp_preserves_consistency hc hgr.1) hgr.2

/-! ## Claim C2 -/

/-- C2, as stated, is false: after `AddPod` of `default/mypod` with cpu=1
and `AddPod` of the same identity with cpu=2, the node's cached usage is
still cpu=1 (the first bind's contribution) while the sum of `Requested()`
over its bound pods is cpu=2, so the cache does not equal the sum. -/
theorem C2_counterexample :
    ((lookupA (runOps NewCluster c2DemoOps).nodes "n1").map fun nd => nd.used "cpu")
        = some 1 ∧
      ((lookupA (runOps NewCluster c2DemoOps).nodes "n1").map fun nd =>
          (nd.pods.map fun kp => kp.2.requested "cpu").sum) = some 2 ∧
      ¬ (runOps NewCluster c2DemoOps).nodesConsistent := by
  obtain ⟨nd, hnd, h1, h2⟩ :
      ∃ nd, lookupA (runOps NewCluster c2DemoOps).nodes "n1" = some nd ∧
        nd.used "cpu" = 1 ∧ (nd.pods.map fun kp => kp.2.requested "cpu").sum = 2 := by
    refine ⟨_, rfl, ?_, ?_⟩ <;>
      norm_num +decide [Node.bindPod, Node.hide, NewNode, placeholderNode, lookupA, upsertA,
        addResources, zeroResources, Pod.requested, cpuContainer, c2Pod1, c2Pod2, List.foldl]
  refine ⟨by rw [hnd]; simp [h1], by rw [hnd]; simp [h2], fun hcons => ?_⟩
  have := (hcons _ (lookupA_mem hnd)) "cpu"
  rw [h1, h2] at this
  norm_num at this

/-- Claim C2 (amended): for every sequence of `AddNode`/`DeleteNode` calls
interleaved with `AddPod`/`DeletePod` calls in which no `AddPod` re-binds an
already-bound pod identity with *changed* resource requests (the stepwise
side condition `goodRun`), every node's cached used-resource total equals,
at every resource, the sum of `Requested()` over exactly the pods currently
bound to that node, each counted once.  (The side condition is forced: the
source keeps the first bind's contribution on re-bind, see
`C2_counterexample`.) -/
theorem C2_usage_cache_exact (ops : List Op) (h : goodRun NewCluster ops) :
    (runOps NewCluster ops).nodesConsistent :=
  runOps_consistency (fun _ hkn => by simp [NewCluster] at hkn) ops h

/-- Witness for `C2_usage_cache_exact`: a concrete good run. -/
theorem C2_usage_cache_exact_witness :
    goodRun NewCluster [Op.addPod c2Pod1] ∧
      (runOps NewCluster [Op.addPod c2Pod1]).nodesConsistent := by
  have hg : goodRun NewCluster [Op.addPod c2Pod1] := by
    refine ⟨?_, trivial⟩
    intro _ _ n q hn
    simp [NewCluster, lookupA] at hn
  exact ⟨hg, C2_usage_cache_exact _ hg⟩

/-! ## Claim C3 -/

/-- C3, as stated, is false: binding `default/mypod` with cpu=1 and then
re-binding the same identity with updated requests cpu=2 leaves the usage
total at cpu=1 — the *first* bind's contribution, not the updated one, which
would be 2. -/
theorem C3_counterexample :
    ((c3Node.bindPod c3Pod1).bindPod c3Pod2).used "cpu" = 1 ∧
      c3Pod2.requested "cpu" = 2 ∧ (1 : ℚ) ≠ 2 := by
  refine ⟨?_, ?_, by norm_num⟩ <;>
    norm_num +decide [Node.bindPod, c3Node, NewNode, lookupA, upsertA, addResources,
      zeroResources, Pod.requested, cpuContainer, c3Pod1, c3Pod2, List.foldl]

/-- Claim C3 (amended): re-binding an already-bound pod identity replaces
the stored pod data but leaves the node's usage total unchanged — the
*original* (first-bind) contribution remains exactly once; the updated
requests are neither accumulated nor substituted.  A first bind of a fresh
identity adds its requests exactly once. -/
theorem C3_rebind_keeps_first_contribution (n : Node) (p q : Pod)
    (hns : q.nameSpace = p.nameSpace) (hnm : q.name = p.name) :
    ((n.bindPod p).bindPod q).used = (n.bindPod p).used ∧
      lookupA ((n.bindPod p).bindPod q).pods (q.nameSpace, q.name) = some q ∧
      (lookupA n.pods (p.nameSpace, p.name) = none →
        ∀ rn, (n.bindPod p).used rn = n.used rn + p.requested rn) := by
  have hbound : lookupA (n.bindPod p).pods (q.nameSpace, q.name) = some p := by
    rw [hns, hnm, Node.bindPod_pods, lookupA_upsertA_self]
  refine ⟨(Node.bindPod_already hbound).1, ?_, ?_⟩
  · rw [(Node.bindPod_already hbound).2, lookupA_upsertA_self]
  · intro hfresh rn
    rw [(Node.bindPod_fresh_spec hfresh).1]
    rfl

/-- Witness for `C3_rebind_keeps_first_contribution` at the concrete
counterexample input. -/
theorem C3_rebind_witness :
    ((c3Node.bindPod c3Pod1).bindPod c3Pod2).used = (c3Node.bindPod c3Pod1).used ∧
      (∀ rn, (c3Node.bindPod c3Pod1).used rn = c3Node.used rn + c3Pod1.requested rn) :=
  ⟨(C3_rebind_keeps_first_contribution c3Node c3Pod1 c3Pod2 rfl rfl).1,
    (C3_rebind_keeps_first_contribution c3Node c3Pod1 c3Pod2 rfl rfl).2.2 rfl⟩

/-! ## Claim C7 -/

/-- Claim C7: parsing `"0.25vCPU 0.5GB"` yields `(0.25, 0.5, found=true)`
and an absent annotation yields `found=false`; but a present annotation that
does not match the pattern is *not* degraded to `found=false`: the source
logs and then indexes `match[1]` on the nil result of
`FindStringSubmatch` — an index-out-of-range panic, embedded as `none`.
The totality part of the claim fails on the code (a code bug: the log line
shows the intended degrade path, and the `return` after it is missing). -/
theorem C7_fargate_parse :
    c7PodOK.fargateCapacityProvisioned = some (1/4, 1/2, true) ∧
      c7PodNoAnnot.fargateCapacityProvisioned = some (0, 0, false) ∧
      c7PodGarbage.fargateCapacityProvisioned = none := by
  refine ⟨?_, rfl, rfl⟩
  have hl : lookupA c7PodOK.annots "CapacityProvisioned" = some "0.25vCPU 0.5GB" := rfl
  have h1 : fargateMatch "0.25vCPU 0.5GB".data
      = some (['0', '.', '2', '5'], ['0', '.', '5']) := rfl
  obtain ⟨q1, hq1, e1⟩ : ∃ q, parseGoFloat ['0', '.', '2', '5'] = some q ∧ q = (1/4 : ℚ) :=
    ⟨_, rfl, by
      norm_num [show ('2').toNat - ('0').toNat = 2 from rfl,
        show ('5').toNat - ('0').toNat = 5 from rfl]⟩
  obtain ⟨q2, hq2, e2⟩ : ∃ q, parseGoFloat ['0', '.', '5'] = some q ∧ q = (1/2 : ℚ) :=
    ⟨_, rfl, by norm_num [show ('5').toNat - ('0').toNat = 5 from rfl]⟩
  simp only [Pod.fargateCapacityProvisioned, hl, h1, hq1, hq2, e1, e2]

/-! ## Claim C8 -/

/-- C8, as stated, is false: a node with name `mynode` and provider ID
`mynode-id` is stored and looked up under `mynode` (its name), not under the
provider-assigned `mynode-id` the claim requires. -/
theorem C8_counterexample :
    specNodeKey c8Node = "mynode-id" ∧
      c8Cluster.getNode "mynode-id" = none ∧
      c8Cluster.getNode "mynode" = some c8Node := by
  refine ⟨rfl, rfl, rfl⟩

/-- Claim C8 (amended): the identity key under which `AddNode` stores a node
(and under which `GetNode`/`DeleteNode` address it) is `Node.Name()`: the
node's *name*, falling back to the provider ID only when the name is
empty — the opposite precedence to the claim's. -/
theorem C8_key_is_name_first (c : Cluster) (node : Node) :
    lookupA (c.addNode node).2.nodes node.name = some (c.addNode node).1 ∧
      (node.node.name = "" → node.name = node.node.providerID) ∧
      (node.node.name ≠ "" → node.name = node.node.name) := by
  refine ⟨?_, ?_, ?_⟩
  · cases hl : lookupA c.nodes node.name with
    | some ex => simp [Cluster.addNode, hl, lookupA_upsertA_self]
    | none => simp [Cluster.addNode, hl, lookupA_upsertA_self]
  · intro h; simp [Node.name, h]
  · intro h; simp [Node.name, h]

/-- Witness for `C8_key_is_name_first` at the concrete node. -/
theorem C8_key_witness :
    lookupA (NewCluster.addNode c8Node).2.nodes c8Node.name
        = some (NewCluster.addNode c8Node).1 ∧
      c8Node.name = c8Node.node.name :=
  ⟨(C8_key_is_name_first NewCluster c8Node).1,
    (C8_key_is_name_first NewCluster c8Node).2.2 (by decide)⟩

/-! ## Claim C10 -/

/-- Claim C10: `Ready()` is not side-effect-free: it reports whether a
`Ready` condition with status `True` is present, and whenever that is
observed it zeroes the stored nodeclaim creation time — after which
`Created()` returns the node object's creation timestamp — while every
other field of the node is left unchanged. -/
theorem C10_ready_side_effect (n : Node) :
    (n.ready).1 = (n.node.conditions.any fun c => c.status == "True" && c.condType == "Ready") ∧
      (n.ready).2.nodeclaimCreationTime
        = (if (n.ready).1 then 0 else n.nodeclaimCreationTime) ∧
      (n.ready).2.visible = n.visible ∧
      (n.ready).2.node = n.node ∧
      (n.ready).2.pods = n.pods ∧
      (n.ready).2.used = n.used ∧
      (n.ready).2.Price = n.Price ∧
      Node.created { n with nodeclaimCreationTime := 0 } = n.node.creationTimestamp := by
  cases hr : n.node.conditions.any fun c => c.status == "True" && c.condType == "Ready" <;>
    simp [Node.ready, hr, Node.created]

/-! ## Claim C6 -/

/-- Claim C6: `AddNode` is an upsert by identity.  When the key exists, the
existing entity's snapshot is replaced in place — the entry keeps its key
and position and the entity keeps its bound pods, usage cache, price,
visibility and nodeclaim creation time — and the existing entity is
returned.  When the key is fresh, the new entity is installed as-is (at the
end of the map) and returned, and `NewNode`-built entities are not visible
by default.  In particular, adding `n1` with allocatable cpu=1 and then
adding `n1` again with allocatable cpu=2 yields
`Stats().AllocatableResources[cpu] = 2` (replace, not add). -/
theorem C6_addNode_upsert :
    (∀ (c : Cluster) (node ex : Node), lookupA c.nodes node.name = some ex →
      (c.addNode node).1 = ex.update node.node ∧
        (c.addNode node).2.nodes = upsertA c.nodes node.name (ex.update node.node) ∧
        (ex.update node.node).node = node.node ∧
        (ex.update node.node).pods = ex.pods ∧
        (ex.update node.node).used = ex.used ∧
        (ex.update node.node).Price = ex.Price ∧
        (ex.update node.node).visible = ex.visible ∧
        (ex.update node.node).nodeclaimCreationTime = ex.nodeclaimCreationTime) ∧
      (∀ (c : Cluster) (node : Node), lookupA c.nodes node.name = none →
        (c.addNode node).1 = node ∧
          (c.addNode node).2.nodes = c.nodes ++ [(node.name, node)]) ∧
      (∀ snap, (NewNode snap).visible = false) ∧
      c6Cluster2.stats.allocatableResources "cpu" = 2 := by
  refine ⟨?_, ?_, fun snap => rfl, ?_⟩
  · intro c node ex h
    obtain ⟨h1, h2, _⟩ := Cluster.addNode_spec_some h
    exact ⟨h1, h2, rfl, rfl, rfl, rfl, rfl, rfl⟩
  · intro c node h
    obtain ⟨h1, h2, _⟩ := Cluster.addNode_spec_none h
    exact ⟨h1, h2⟩
  · norm_num +decide [Cluster.stats, Cluster.visibleNodes, c6Cluster2, c6Cluster1,
      Cluster.showNode, Cluster.addNode, NewCluster, NewNode, Node.name, Node.show',
      Node.update, lookupA, upsertA, c6Snap1, c6Snap2]

/-- Witness for `C6_addNode_upsert` at concrete inputs: the fresh-install
branch on the empty cluster and the replace-in-place branch on `c6Cluster1`. -/
theorem C6_addNode_witness :
    (NewCluster.addNode (NewNode c6Snap1)).1 = NewNode c6Snap1 ∧
      (c6Cluster1.addNode (NewNode c6Snap2)).1 = c6Ex.update (NewNode c6Snap2).node ∧
      (c6Ex.update (NewNode c6Snap2).node).visible = c6Ex.visible ∧
      (NewNode c6Snap2).visible = false :=
  ⟨(C6_addNode_upsert.2.1 NewCluster (NewNode c6Snap1) rfl).1,
    (C6_addNode_upsert.1 c6Cluster1 (NewNode c6Snap2) c6Ex rfl).1,
    (C6_addNode_upsert.1 c6Cluster1 (NewNode c6Snap2) c6Ex rfl).2.2.2.2.2.2.1,
    C6_addNode_upsert.2.2.1 c6Snap2⟩

/-! ## Claim C1 -/

/-- A node's price is known exactly when it is not the NaN sentinel. -/
theorem Node.hasPrice_iff (n : Node) : n.hasPrice = true ↔ n.Price ≠ GoFloat.nan := by
  cases h : n.Price <;> simp [Node.hasPrice, h]

/-- Folding prices over nodes that all have a known price gives the exact
finite sum. -/
theorem totalPrice_all_fin :
    ∀ (l : List Node) (q : ℚ), (∀ m ∈ l, m.hasPrice = true) →
      l.foldl (fun acc n => acc.add n.Price) (GoFloat.fin q)
        = GoFloat.fin (q + (l.map fun n => n.Price.val).sum) := by
  intro l
  induction l with
  | nil => intro q _; simp
  | cons m t ih =>
      intro q h
      have hm : m.hasPrice = true := h m (by simp)
      cases hp : m.Price with
      | nan => rw [Node.hasPrice_iff] at hm; exact absurd hp hm
      | fin v =>
          rw [List.foldl_cons,
            show (GoFloat.fin q).add m.Price = GoFloat.fin (q + v) by rw [hp]; rfl,
            ih (q + v) fun x hx => h x (by simp [hx])]
          simp [hp, GoFloat.val, List.sum_cons]
          ring

/-- NaN absorbs a whole price fold. -/
theorem totalPrice_nan_acc :
    ∀ l : List Node, l.foldl (fun acc n => acc.add n.Price) GoFloat.nan = GoFloat.nan := by
  intro l
  induction l with
  | nil => rfl
  | cons m t ih =>
      simp only [List.foldl_cons, GoFloat.add]
      exact ih

/-- A single unknown-price node makes the whole price fold NaN. -/
theorem totalPrice_nan_mem :
    ∀ (l : List Node) (m : Node), m ∈ l → m.hasPrice = false →
      ∀ a : GoFloat, l.foldl (fun acc n => acc.add n.Price) a = GoFloat.nan := by
  intro l
  induction l with
  | nil => intro m hm; simp at hm
  | cons x t ih =>
      intro m hm hp a
      have hnanadd : ∀ b : GoFloat, b.add GoFloat.nan = GoFloat.nan := by
        intro b; cases b <;> rfl
      rcases List.mem_cons.mp hm with h | h
      · subst h
        have : m.Price = GoFloat.nan := by
          cases hmp : m.Price with
          | nan => rfl
          | fin v => simp [Node.hasPrice, hmp] at hp
        simp only [List.foldl_cons, this, hnanadd]
        exact totalPrice_nan_acc t
      · simp only [List.foldl_cons]
        exact ih m h hp _

/-- C1, as stated, is false: with one visible node carrying the NaN
sentinel, `Stats()` adds the NaN into `TotalPrice` unconditionally, giving
NaN — not the zero the only-known-prices sum prescribes — while the node is
still counted in `NumNodes`. -/
theorem C1_counterexample :
    c1Cluster.stats.totalPrice = GoFloat.nan ∧
      specTotalPrice c1Cluster = GoFloat.fin 0 ∧
      GoFloat.nan ≠ GoFloat.fin 0 ∧
      c1Cluster.stats.numNodes = 1 := by
  refine ⟨rfl, rfl, ?_, rfl⟩
  intro h
  exact GoFloat.noConfusion h

/-- Claim C1 (amended): `Stats()` sums `Price` over *all* visible nodes with
no known-price filter.  When every visible node has a known price this
equals the sum over the known-price nodes (the claim's value); but one
visible node carrying the unknown-price sentinel makes `TotalPrice` NaN
rather than contributing zero.  `NumNodes` counts every visible node
regardless of price. -/
theorem C1_total_price (c : Cluster) :
    ((∀ m ∈ c.visibleNodes, m.hasPrice = true) →
        c.stats.totalPrice = specTotalPrice c) ∧
      c.stats.numNodes = c.visibleNodes.length ∧
      (∀ m ∈ c.visibleNodes, m.hasPrice = false → c.stats.totalPrice = GoFloat.nan) := by
  refine ⟨?_, rfl, ?_⟩
  · intro h
    have hfilter : c.visibleNodes.filter (fun n => n.hasPrice) = c.visibleNodes :=
      List.filter_eq_self.mpr h
    show c.visibleNodes.foldl (fun acc n => acc.add n.Price) (GoFloat.fin 0) = _
    rw [totalPrice_all_fin c.visibleNodes 0 h]
    simp [specTotalPrice, hfilter]
  · intro m hm hp
    exact totalPrice_nan_mem c.visibleNodes m hm hp _

/-- Witness for `C1_total_price`: the all-known branch on a one-node cluster
with price 5 and the NaN branch on the sentinel cluster. -/
theorem C1_total_price_witness :
    c1aCluster.stats.totalPrice = specTotalPrice c1aCluster ∧
      c1Cluster.stats.totalPrice = GoFloat.nan :=
  ⟨(C1_total_price c1aCluster).1 (by
      intro m hm
      rw [show c1aCluster.visibleNodes = [c1FinNode] from rfl] at hm
      rw [List.mem_singleton.mp hm]
      rfl),
    (C1_total_price c1Cluster).2.2 c1NanNode (by
      rw [show c1Cluster.visibleNodes = [c1NanNode] from rfl]
      exact List.mem_singleton.mpr rfl) rfl⟩

/-! ## Claim C4 -/

/-- Claim C4: `DeleteNode(k)` removes the node stored under `k` (leaving
every other key untouched) and, in the same single transition (the source
holds the cluster lock across the scan and the deletes), removes from the
global pod map exactly the pods whose bound target node equals `k`; a
subsequent `GetPod` for any such pod returns not-found, and any other pod is
still found. -/
theorem C4_deleteNode_cascades (c : Cluster) (k : String)
    (ndN : (c.nodes.map Prod.fst).Nodup) (ndP : (c.pods.map Prod.fst).Nodup) :
    lookupA (c.deleteNode k).nodes k = none ∧
      (∀ k', k' ≠ k → lookupA (c.deleteNode k).nodes k' = lookupA c.nodes k') ∧
      (∀ ns nm, (c.deleteNode k).getPod ns nm =
        (c.getPod ns nm).bind fun p => if p.nodeName = k then none else some p) := by
  refine ⟨lookupA_eraseA_self ndN, fun k' h => lookupA_eraseA_ne c.nodes h, ?_⟩
  intro ns nm
  show lookupA ((c.pods).filter fun kp => !(kp.2.nodeName == k)) (ns, nm) = _
  rw [lookupA_filter ndP]
  show (lookupA c.pods (ns, nm)).bind _ = (lookupA c.pods (ns, nm)).bind _
  cases lookupA c.pods (ns, nm) with
  | none => rfl
  | some p =>
      by_cases h : p.nodeName = k <;> simp [h]

/-- Witness for `C4_deleteNode_cascades` on the concrete one-node,
one-bound-pod cluster. -/
theorem C4_deleteNode_witness :
    lookupA (c4Cluster.deleteNode "n1").nodes "n1" = none ∧
      (c4Cluster.deleteNode "n1").getPod "default" "mypod" =
        (c4Cluster.getPod "default" "mypod").bind
          (fun p => if p.nodeName = "n1" then none else some p) :=
  ⟨(C4_deleteNode_cascades c4Cluster "n1" (by decide) (by decide)).1,
    (C4_deleteNode_cascades c4Cluster "n1" (by decide) (by decide)).2.2 "default" "mypod"⟩

/-! ## Claim C5: helpers -/

theorem lookupA_append_mid {κ α : Type} [DecidableEq κ] {l₁ : List (κ × α)} (k : κ) (v : α)
    (l₂ : List (κ × α)) (h : ∀ e ∈ l₁, e.1 ≠ k) :
    lookupA (l₁ ++ (k, v) :: l₂) k = some v := by
  induction l₁ with
  | nil => simp [lookupA]
  | cons e t ih =>
      obtain ⟨k₀, v₀⟩ := e
      have hk : k₀ ≠ k := h (k₀, v₀) (by simp)
      simp only [List.cons_append, lookupA, hk, if_false]
      exact ih fun e he => h e (by simp [he])

/-- Growing a filter by a disjoint predicate grows the count by the number
of elements the new predicate admits. -/
theorem length_filter_or {β : Type} (l : List β) (p₁ p₂ t : β → Bool)
    (h : ∀ x ∈ l, p₂ x = (p₁ x || t x) ∧ (t x = true → p₁ x = false)) :
    (l.filter p₂).length = (l.filter p₁).length + (l.filter t).length := by
  induction l with
  | nil => simp
  | cons x xs ih =>
      have hx := h x (by simp)
      have ih' := ih fun y hy => h y (by simp [hy])
      cases ht : t x with
      | true =>
          have hp1 : p₁ x = false := hx.2 ht
          have hp2 : p₂ x = true := by rw [hx.1, hp1, ht]; rfl
          simp [List.filter_cons, hp1, hp2, ht, ih']
          omega
      | false =>
          cases hp1 : p₁ x with
          | true =>
              have hp2 : p₂ x = true := by rw [hx.1, hp1]; rfl
              simp [List.filter_cons, hp1, hp2, ht, ih']
              omega
          | false =>
              have hp2 : p₂ x = false := by rw [hx.1, hp1, ht]; rfl
              simp [List.filter_cons, hp1, hp2, ht, ih']

/-- Pull one addend out of a node-price fold. -/
theorem foldl_price_out (l : List Node) (acc x : GoFloat) :
    l.foldl (fun a m => a.add m.Price) (acc.add x)
      = (l.foldl (fun a m => a.add m.Price) acc).add x := by
  induction l generalizing acc with
  | nil => rfl
  | cons y t ih =>
      simp only [List.foldl_cons]
      rw [GoFloat.add_right_comm acc x y.Price, ih]

/-- Claim C5: `Stats()` excludes non-visible nodes and their pods from every
aggregate.  For a cluster holding a hidden node `n` under key `k`: the node
is still reachable via `GetNode`; it appears nowhere in `Stats().Nodes`
(every listed node is visible); and after `Show()` on it, `NumNodes` grows
by one, the allocatable/used totals grow by exactly the node's allocatable
and cached usage, `TotalPrice` grows by exactly its price, and the pods
whose target is `k` — previously contributing to none of `TotalPods`,
`PodsByPhase` or `BoundPodCount` — are now counted in each; the shown node
itself appears in the node list. -/
theorem C5_hidden_node_excluded (c : Cluster) (k : String) (n : Node)
    (hl : lookupA c.nodes k = some n) (hv : n.visible = false) :
    c.getNode k = some n ∧
      n ∉ c.stats.nodes ∧
      (∀ m ∈ c.stats.nodes, m.visible = true) ∧
      (c.showNode k).stats.numNodes = c.stats.numNodes + 1 ∧
      (∀ rn, (c.showNode k).stats.allocatableResources rn
          = c.stats.allocatableResources rn + n.node.allocatable rn) ∧
      (∀ rn, (c.showNode k).stats.usedResources rn
          = c.stats.usedResources rn + n.used rn) ∧
      (c.showNode k).stats.totalPrice = c.stats.totalPrice.add n.Price ∧
      (c.showNode k).stats.totalPods = c.stats.totalPods
          + ((c.pods.map Prod.snd).filter fun p => p.nodeName == k).length ∧
      (c.showNode k).stats.boundPodCount = c.stats.boundPodCount
          + ((c.pods.map Prod.snd).filter fun p =>
              (p.nodeName != "") && (p.nodeName == k)).length ∧
      (∀ ph, (c.showNode k).stats.podsByPhase ph = c.stats.podsByPhase ph
          + ((c.pods.map Prod.snd).filter fun p =>
              (p.phase == ph) && (p.nodeName == k)).length) ∧
      n.show' ∈ (c.showNode k).stats.nodes := by
  obtain ⟨l₁, l₂, hsplit, hkeys, hups⟩ := exists_split_of_lookupA hl
  have hupser : (c.showNode k).nodes = upsertA c.nodes k n.show' := by
    simp [Cluster.showNode, hl]
  have hnodes' : (c.showNode k).nodes = l₁ ++ (k, n.show') :: l₂ := by
    rw [hupser, hups]
  have hpods' : (c.showNode k).pods = c.pods := by
    simp [Cluster.showNode, hl]
  have hvisC : c.visibleNodes
      = (l₁.map Prod.snd).filter (fun m => m.visible)
        ++ (l₂.map Prod.snd).filter (fun m => m.visible) := by
    unfold Cluster.visibleNodes
    rw [hsplit]
    simp [List.map_append, List.filter_append, List.filter_cons, hv]
  have hvisC' : (c.showNode k).visibleNodes
      = (l₁.map Prod.snd).filter (fun m => m.visible)
        ++ n.show' :: (l₂.map Prod.snd).filter (fun m => m.visible) := by
    unfold Cluster.visibleNodes
    rw [hnodes']
    simp [List.map_append, List.filter_append, List.filter_cons, Node.show']
  have hcount : ∀ p : Pod,
      ((c.showNode k).podCounted p = (c.podCounted p || (p.nodeName == k))) ∧
        ((p.nodeName == k) = true → c.podCounted p = false) := by
    intro p
    by_cases hpk : p.nodeName = k
    · have h1 : c.podCounted p = false := by
        unfold Cluster.podCounted
        rw [hpk, hl]
        exact hv
      have h2 : (c.showNode k).podCounted p = true := by
        unfold Cluster.podCounted
        rw [hpk, hupser, lookupA_upsertA_self]
        rfl
      simp [h1, h2, hpk]
    · have hlk : lookupA (c.showNode k).nodes p.nodeName = lookupA c.nodes p.nodeName := by
        rw [hupser]
        exact lookupA_upsertA_ne _ _ hpk
      have heq : (c.showNode k).podCounted p = c.podCounted p := by
        unfold Cluster.podCounted
        rw [hlk]
      have ht : (p.nodeName == k) = false := by simp [hpk]
      simp [heq, ht]
  have hpermC : c.stats.nodes.Perm c.visibleNodes := List.mergeSort_perm _ _
  have hpermC' : (c.showNode k).stats.nodes.Perm ((c.showNode k).visibleNodes) :=
    List.mergeSort_perm _ _
  refine ⟨hl, ?_, ?_, ?_, ?_, ?_, ?_, ?_, ?_, ?_, ?_⟩
  · intro hmem
    have hn : n ∈ c.visibleNodes := hpermC.mem_iff.mp hmem
    rw [hvisC] at hn
    have hvt : n.visible = true := by
      rcases List.mem_append.mp hn with h | h
      · exact List.of_mem_filter h
      · exact List.of_mem_filter h
    rw [hv] at hvt
    exact Bool.noConfusion hvt
  · intro m hmem
    have : m ∈ c.visibleNodes := hpermC.mem_iff.mp hmem
    rw [hvisC] at this
    rcases List.mem_append.mp this with h | h
    · exact List.of_mem_filter h
    · exact List.of_mem_filter h
  · show (c.showNode k).visibleNodes.length = c.visibleNodes.length + 1
    rw [hvisC, hvisC']
    simp [List.length_append]
    omega
  · intro rn
    show ((c.showNode k).visibleNodes.map fun m => m.node.allocatable rn).sum
        = (c.visibleNodes.map fun m => m.node.allocatable rn).sum + n.node.allocatable rn
    rw [hvisC, hvisC']
    simp [List.map_append, List.sum_append, Node.show']
    ring
  · intro rn
    show ((c.showNode k).visibleNodes.map fun m => m.used rn).sum
        = (c.visibleNodes.map fun m => m.used rn).sum + n.used rn
    rw [hvisC, hvisC']
    simp [List.map_append, List.sum_append, Node.show']
    ring
  · show (c.showNode k).visibleNodes.foldl (fun acc m => acc.add m.Price) (GoFloat.fin 0)
        = (c.visibleNodes.foldl (fun acc m => acc.add m.Price) (GoFloat.fin 0)).add n.Price
    rw [hvisC, hvisC', List.foldl_append, List.foldl_append, List.foldl_cons]
    have hsp : (n.show').Price = n.Price := rfl
    rw [hsp, foldl_price_out]
  · show (((c.showNode k).pods.map Prod.snd).filter (c.showNode k).podCounted).length = _
    rw [hpods']
    exact length_filter_or (c.pods.map Prod.snd) c.podCounted (c.showNode k).podCounted
      (fun p => p.nodeName == k) (fun p _ => hcount p)
  · show ((((c.showNode k).pods.map Prod.snd).filter
          (c.showNode k).podCounted).filter fun p => p.nodeName != "").length
        = (((c.pods.map Prod.snd).filter c.podCounted).filter
            fun p => p.nodeName != "").length
          + ((c.pods.map Prod.snd).filter fun p =>
              (p.nodeName != "") && (p.nodeName == k)).length
    rw [hpods', List.filter_filter, List.filter_filter]
    refine length_filter_or (c.pods.map Prod.snd)
      (fun p => (p.nodeName != "") && c.podCounted p)
      (fun p => (p.nodeName != "") && (c.showNode k).podCounted p)
      (fun p => (p.nodeName != "") && (p.nodeName == k)) ?_
    intro p _
    constructor
    · simp only [(hcount p).1, Bool.and_or_distrib_left]
    · intro ht
      have ht' : (p.nodeName == k) = true := by
        simp only [Bool.and_eq_true] at ht
        exact ht.2
      simp only [(hcount p).2 ht', Bool.and_false]
  · intro ph
    show ((((c.showNode k).pods.map Prod.snd).filter
          (c.showNode k).podCounted).filter fun p => p.phase == ph).length
        = (((c.pods.map Prod.snd).filter c.podCounted).filter
            fun p => p.phase == ph).length
          + ((c.pods.map Prod.snd).filter fun p =>
              (p.phase == ph) && (p.nodeName == k)).length
    rw [hpods', List.filter_filter, List.filter_filter]
    refine length_filter_or (c.pods.map Prod.snd)
      (fun p => (p.phase == ph) && c.podCounted p)
      (fun p => (p.phase == ph) && (c.showNode k).podCounted p)
      (fun p => (p.phase == ph) && (p.nodeName == k)) ?_
    intro p _
    constructor
    · simp only [(hcount p).1, Bool.and_or_distrib_left]
    · intro ht
      have ht' : (p.nodeName == k) = true := by
        simp only [Bool.and_eq_true] at ht
        exact ht.2
      simp only [(hcount p).2 ht', Bool.and_false]
  · refine hpermC'.mem_iff.mpr ?_
    rw [hvisC']
    exact List.mem_append.mpr (Or.inr (by simp))

/-- Witness for `C5_hidden_node_excluded` on the spec's concrete scenario:
hidden `n1` (cpu=8) with bound pod `default/mypod` (cpu=1); `TotalPods` goes
0 to 1 and `UsedResources[cpu]` goes 0 to 1 on `Show()`. -/
theorem C5_hidden_node_witness :
    c5Cluster.getNode "n1" = some c5Stored ∧
      (c5Cluster.showNode "n1").stats.numNodes = c5Cluster.stats.numNodes + 1 ∧
      (c5Cluster.showNode "n1").stats.totalPods = c5Cluster.stats.totalPods
        + ((c5Cluster.pods.map Prod.snd).filter fun p => p.nodeName == "n1").length ∧
      (c5Cluster.showNode "n1").stats.usedResources "cpu"
        = c5Cluster.stats.usedResources "cpu" + c5Stored.used "cpu" ∧
      c5Cluster.stats.totalPods = 0 ∧
      (c5Cluster.showNode "n1").stats.totalPods = 1 ∧
      c5Cluster.stats.usedResources "cpu" = 0 ∧
      (c5Cluster.showNode "n1").stats.usedResources "cpu" = 1 := by
  have hl : lookupA c5Cluster.nodes "n1" = some c5Stored := rfl
  have hv : c5Stored.visible = false := rfl
  obtain ⟨h1, _, _, h4, _, h6, _, h8, _, _, _⟩ :=
    C5_hidden_node_excluded c5Cluster "n1" c5Stored hl hv
  refine ⟨h1, h4, h8, h6 "cpu", rfl, rfl, rfl, ?_⟩
  show ((((c5Cluster.showNode "n1").visibleNodes).map fun m => m.used "cpu").sum) = 1
  norm_num +decide [Cluster.visibleNodes, Cluster.showNode, c5Cluster, c5Node, c5Pod,
    Cluster.addNode, Cluster.addPod, NewCluster, NewNode, Node.name, Node.show',
    Node.bindPod, lookupA, upsertA, addResources, zeroResources, Pod.requested,
    cpuContainer, Cluster.getNode, Pod.isScheduled, Pod.isCompleted, List.foldl]

/-! ## Claim C9: the sort comparator is a strict weak order -/

theorem chListLt_asymm : ∀ {a b : List Char}, chListLt a b = true → chListLt b a = false := by
  intro a
  induction a with
  | nil =>
      intro b h
      cases b with
      | nil => simp [chListLt] at h
      | cons c cs => rfl
  | cons x xs ih =>
      intro b h
      cases b with
      | nil => simp [chListLt] at h
      | cons y ys =>
          by_cases hxy : x < y
          · have hyx : ¬(y < x) := lt_asymm hxy
            simp [chListLt, hxy, hyx]
          · by_cases hyx : y < x
            · simp [chListLt, hxy, hyx] at h
            · simp only [chListLt, hxy, hyx, if_false] at h ⊢
              exact ih h

theorem chListLt_trans :
    ∀ {a b c : List Char}, chListLt a b = true → chListLt b c = true → chListLt a c = true := by
  intro a
  induction a with
  | nil =>
      intro b c h1 h2
      cases b with
      | nil => simp [chListLt] at h1
      | cons y ys =>
          cases c with
          | nil => simp [chListLt] at h2
          | cons z zs => rfl
  | cons x xs ih =>
      intro b c h1 h2
      cases b with
      | nil => simp [chListLt] at h1
      | cons y ys =>
          cases c with
          | nil => simp [chListLt] at h2
          | cons z zs =>
              by_cases hxy : x < y
              · by_cases hyz : y < z
                · simp [chListLt, lt_trans hxy hyz]
                · by_cases hzy : z < y
                  · simp [chListLt, hyz, hzy] at h2
                  · have hyz' : y = z := le_antisymm (not_lt.mp hzy) (not_lt.mp hyz)
                    subst hyz'
                    simp [chListLt, hxy]
              · by_cases hyx : y < x
                · simp [chListLt, hxy, hyx] at h1
                · have hxy' : x = y := le_antisymm (not_lt.mp hyx) (not_lt.mp hxy)
                  subst hxy'
                  simp only [chListLt, lt_irrefl, if_false] at h1
                  by_cases hyz : x < z
                  · simp [chListLt, hyz]
                  · by_cases hzy : z < x
                    · simp [chListLt, hyz, hzy] at h2
                    · simp only [chListLt, hyz, hzy, if_false] at h2 ⊢
                      exact ih h1 h2

theorem chListLt_eq_of_not :
    ∀ {a b : List Char}, chListLt a b = false → chListLt b a = false → a = b := by
  intro a
  induction a with
  | nil =>
      intro b h1 _
      cases b with
      | nil => rfl
      | cons c cs => simp [chListLt] at h1
  | cons x xs ih =>
      intro b h1 h2
      cases b with
      | nil => simp [chListLt] at h2
      | cons y ys =>
          by_cases hxy : x < y
          · simp [chListLt, hxy] at h1
          · by_cases hyx : y < x
            · simp [chListLt, hyx] at h2
            · have hxy' : x = y := le_antisymm (not_lt.mp hyx) (not_lt.mp hxy)
              subst hxy'
              simp only [chListLt, lt_irrefl, if_false] at h1 h2
              rw [ih h1 h2]

theorem strLt_eq_of_not {s t : String} (h1 : strLt s t = false) (h2 : strLt t s = false) :
    s = t :=
  String.ext (chListLt_eq_of_not h1 h2)

/-- Both no-inversion facts pin the sort key: equal creation times and equal
names. -/
theorem goNodeLess_both_false {x y : Node}
    (h1 : goNodeLess x y = false) (h2 : goNodeLess y x = false) :
    x.created = y.created ∧ x.name = y.name := by
  by_cases hc : x.created = y.created
  · refine ⟨hc, ?_⟩
    rw [goNodeLess, if_pos hc] at h1
    rw [goNodeLess, if_pos hc.symm] at h2
    exact strLt_eq_of_not h1 h2
  · rw [goNodeLess, if_neg hc, decide_eq_false_iff_not, not_lt] at h1
    rw [goNodeLess, if_neg (fun hh => hc hh.symm), decide_eq_false_iff_not, not_lt] at h2
    exact absurd (le_antisymm h2 h1) hc

theorem goNodeLess_asymm {a b : Node} (h : goNodeLess a b = true) :
    goNodeLess b a = false := by
  by_cases hc : a.created = b.created
  · rw [goNodeLess, if_pos hc] at h
    rw [goNodeLess, if_pos hc.symm]
    exact chListLt_asymm h
  · rw [goNodeLess, if_neg hc, decide_eq_true_eq] at h
    rw [goNodeLess, if_neg (fun hh => hc hh.symm), decide_eq_false_iff_not]
    exact lt_asymm h

theorem nodeSortLE_total (a b : Node) : (nodeSortLE a b || nodeSortLE b a) = true := by
  unfold nodeSortLE
  cases h : goNodeLess b a with
  | false => rfl
  | true => simp [goNodeLess_asymm h]

/-- The no-inversion reading of the comparator: `goNodeLess x y = false`
says the sort key of `y` is at most that of `x`. -/
theorem goNodeLess_false_iff {x y : Node} :
    goNodeLess x y = false ↔
      (y.created < x.created ∨ (x.created = y.created ∧ strLt x.name y.name = false)) := by
  by_cases hc : x.created = y.created
  · rw [goNodeLess, if_pos hc]
    constructor
    · intro h
      exact Or.inr ⟨hc, h⟩
    · intro h
      rcases h with h | h
      · rw [hc] at h
        exact absurd h (lt_irrefl _)
      · exact h.2
  · rw [goNodeLess, if_neg hc, decide_eq_false_iff_not, not_lt]
    constructor
    · intro h
      rcases lt_or_eq_of_le h with h' | h'
      · exact Or.inl h'
      · exact absurd h'.symm hc
    · intro h
      rcases h with h | h
      · exact le_of_lt h
      · exact absurd h.1 hc

theorem nodeSortLE_trans (a b c : Node) (h1 : nodeSortLE a b = true)
    (h2 : nodeSortLE b c = true) : nodeSortLE a c = true := by
  unfold nodeSortLE at h1 h2 ⊢
  rw [Bool.not_eq_true'] at h1 h2 ⊢
  rw [goNodeLess_false_iff] at h1 h2 ⊢
  rcases h1 with h1 | h1
  · rcases h2 with h2 | h2
    · exact Or.inl (lt_trans h1 h2)
    · exact Or.inl (h2.1 ▸ h1)
  · rcases h2 with h2 | h2
    · exact Or.inl (h1.1 ▸ h2)
    · refine Or.inr ⟨h2.1.trans h1.1, ?_⟩
      have h1n : chListLt b.name.data a.name.data = false := h1.2
      have h2n : chListLt c.name.data b.name.data = false := h2.2
      show chListLt c.name.data a.name.data = false
      cases hca : chListLt c.name.data a.name.data with
      | false => rfl
      | true =>
          by_cases hbc : chListLt b.name.data c.name.data = true
          · rw [chListLt_trans hbc hca] at h1n
            exact h1n
          · have hbceq : b.name.data = c.name.data :=
              chListLt_eq_of_not (Bool.not_eq_true _ ▸ hbc : _ = false) h2n
            rw [← hbceq] at hca
            rw [hca] at h1n
            exact h1n

/-- Sorting is deterministic on node lists with pairwise-distinct names: two
arrangements of the same nodes that are both sorted by the comparator are
identical. -/
theorem sorted_nodup_perm_eq :
    ∀ (l₁ l₂ : List Node), l₁.Perm l₂ → (l₁.map Node.name).Nodup →
      List.Pairwise (fun a b => goNodeLess b a = false) l₁ →
      List.Pairwise (fun a b => goNodeLess b a = false) l₂ → l₁ = l₂ := by
  intro l₁
  induction l₁ with
  | nil =>
      intro l₂ hperm _ _ _
      exact (hperm.symm.eq_nil).symm
  | cons a t₁ ih =>
      intro l₂ hperm hnd hp₁ hp₂
      cases l₂ with
      | nil => exact absurd hperm.eq_nil (by simp)
      | cons b t₂ =>
          have hab : a = b := by
            by_contra hne
            have ha2 : a ∈ b :: t₂ := hperm.mem_iff.mp (List.mem_cons_self _ _)
            have hat₂ : a ∈ t₂ := by
              rcases List.mem_cons.mp ha2 with h | h
              · exact absurd h hne
              · exact h
            have hb1 : b ∈ a :: t₁ := hperm.mem_iff.mpr (List.mem_cons_self _ _)
            have hbt₁ : b ∈ t₁ := by
              rcases List.mem_cons.mp hb1 with h | h
              · exact absurd h.symm hne
              · exact h
            have h1 : goNodeLess b a = false := (List.pairwise_cons.mp hp₁).1 b hbt₁
            have h2 : goNodeLess a b = false := (List.pairwise_cons.mp hp₂).1 a hat₂
            have hkeys := goNodeLess_both_false h2 h1
            have hnames : a.name = b.name := hkeys.2
            have : a = b :=
              List.inj_on_of_nodup_map hnd (List.mem_cons_self _ _)
                (List.mem_cons_of_mem _ hbt₁) hnames
            exact hne this
          subst hab
          have ht : t₁ = t₂ :=
            ih t₂ (hperm.cons_inv) (by simpa using (List.nodup_cons.mp (by simpa using hnd)).2)
              (List.pairwise_cons.mp hp₁).2 (List.pairwise_cons.mp hp₂).2
          rw [ht]

/-- Claim C9: the node list returned by `Stats()` is deterministically
ordered by the fixed policy of the source comparator — ascending by
`Created()`, ties broken by ascending `Name()` (`goNodeLess`); the list is
exactly the visible nodes (as a permutation); and, whenever the listed
nodes have pairwise-distinct names (which holds for the node map, keyed by
`Name()`), any two sorted arrangements of the same nodes coincide — so two
`Stats()` calls on the same state return the same order regardless of map
iteration order and of the instability of the sort. -/
theorem C9_stats_nodes_ordering (c : Cluster) :
    List.Pairwise (fun a b => goNodeLess b a = false) c.stats.nodes ∧
      c.stats.nodes.Perm c.visibleNodes ∧
      (∀ l₁ l₂ : List Node, l₁.Perm l₂ → (l₁.map Node.name).Nodup →
        List.Pairwise (fun a b => goNodeLess b a = false) l₁ →
        List.Pairwise (fun a b => goNodeLess b a = false) l₂ → l₁ = l₂) := by
  refine ⟨?_, List.mergeSort_perm _ _, sorted_nodup_perm_eq⟩
  have hs := List.sorted_mergeSort nodeSortLE_trans nodeSortLE_total c.visibleNodes
  refine hs.imp ?_
  intro a b h
  rw [nodeSortLE, Bool.not_eq_true'] at h
  exact h

/-- Witness for `C9_stats_nodes_ordering`: the determinism part applied to
the concrete singleton arrangement. -/
theorem C9_stats_nodes_witness : [c9Node] = [c9Node] :=
  (C9_stats_nodes_ordering NewCluster).2.2 [c9Node] [c9Node] (List.Perm.refl _)
    (by simp) (by simp) (by simp)

end EksNodeViewer
